import Mathlib

/-!
# Verification of the TFSage feature-extraction core

Shallow embedding of `src/tfsage/features/` (extract_features.py,
extract_features_chip_atlas.py, extract_features_parallel.py,
prepare_assets.py) and of the external collaborators they call
(`lisa.core.genome_tools`, `lisa.core.data_interface`, ripgrep, numpy),
the latter modelled from the specification and the tools' documented
behaviour since their source is not part of this repository.

Files are modelled as lists of text lines; a filesystem maps a path to
`Option (List String)` (`none` = the file does not exist).  Worker-pool
execution is modelled by an explicit completion order `perm : List Nat`:
the list of task indices in the order their futures complete.
-/

/-- Python-level exceptions that the modelled pipeline can raise. -/
inductive PyErr where
  /-- `FileNotFoundError` from `os.stat` / reading a missing file. -/
  | fileNotFound
  /-- Unparsable BED content surfaced while building a region collection. -/
  | malformedInput
  /-- `subprocess.CalledProcessError` carrying the child's exit status. -/
  | calledProcessError (returncode : Nat)
  /-- `ValueError` (e.g. from `np.stack` on an empty sequence). -/
  | valueError
deriving DecidableEq, Repr

/-- A filesystem: path to file content (as a list of lines); `none` means
the file does not exist.  A zero-byte file is `some []`. -/
def FileSystem : Type := String → Option (List String)

/-- Write (create or fully overwrite) a file. -/
def fsWrite (fs : FileSystem) (p : String) (content : List String) : FileSystem :=
  fun q => if q = p then some content else fs q

/-- Delete a file (used for `tempfile.NamedTemporaryFile` cleanup on
context-manager exit). -/
def fsErase (fs : FileSystem) (p : String) : FileSystem :=
  fun q => if q = p then none else fs q

/-- A genomic region.  BED uses `chrom`/`start`/`end`; `end` is a Lean
keyword so it is rendered `stop`.  The fourth BED column is `name`. -/
structure Region where
  chrom : String
  start : Int
  stop : Int
  name : String
deriving DecidableEq, Repr

/-- A genome coordinate system: chromosome name to chromosome length. -/
def Genome : Type := String → Option Int

/-- A `genome_tools.RegionSet`: an ordered sequence of regions sharing one
genome coordinate system. -/
structure RegionSet where
  genome : Genome
  regions : List Region

/-- Projection reading the successful payload of an `Except`, with a default. -/
def okD {ε α : Type} (x : Except ε α) (d : α) : α :=
  match x with
  | .ok v => v
  | .error _ => d

/-- Whether an `Except` value is a success. -/
def isOk {ε α : Type} (x : Except ε α) : Bool :=
  match x with
  | .ok _ => true
  | .error _ => false

/-! ## Modelled collaborators: genome_tools / lisa scoring math

`lisa.core.genome_tools` and `lisa.core.data_interface` are external
dependencies whose source is not under `src/`; only their callers and two
monkey-patched methods are.  The definitions below are modelled from the
spec (overview, RegionIndex service contract, RPScorer contract). -/

/-- Modelled from the spec: two regions overlap when they share a
chromosome and their half-open intervals intersect. -/
def overlaps (a b : Region) : Bool :=
  a.chrom = b.chrom && a.start < b.stop && b.start < a.stop

/-- Midpoint of a region (integer division). -/
def center (r : Region) : Int :=
  (r.start + r.stop) / 2

/-- Modelled from the spec: `genome_tools` genomic distance between two
regions — overlap is treated as distance 0, otherwise the absolute
midpoint-to-midpoint offset. -/
def genomic_distance (a b : Region) : Int :=
  if overlaps a b then 0 else |center a - center b|

/-- Modelled from the spec: the per-pair proximity weight used by
`lisa.core.data_interface.DataInterface._make_basic_rp_map`:
`weight(d) = exp(-|d| / decay)` for the relevant offset. -/
noncomputable def pair_weight (d : Int) (decay : ℝ) : ℝ :=
  Real.exp (-(d.natAbs : ℝ) / decay)

/-- Modelled from the spec: one reference region's RP score is the row sum
of the sparse region-pair weight structure, i.e. the sum over query
regions of the decay-weighted proximity contribution. -/
noncomputable def ref_score (r : Region) (queries : List Region) (decay : ℝ) : ℝ :=
  (queries.map (fun q => pair_weight (genomic_distance q r) decay)).sum

/-- Modelled from the spec: `_make_basic_rp_map` followed by
`rp_map.sum(axis=1)` — one score per reference region, in reference
order. -/
noncomputable def rp_scores (refs queries : List Region) (decay : ℝ) : List ℝ :=
  refs.map (fun r => ref_score r queries decay)

/-- Split a character list at a delimiter (the split fields, in order,
with `acc` the reversed characters of the current field). -/
def splitFieldsAux (delim : Char) : List Char → List Char → List (List Char)
  | [], acc => [acc.reverse]
  | c :: rest, acc =>
    if c = delim then acc.reverse :: splitFieldsAux delim rest []
    else splitFieldsAux delim rest (c :: acc)

/-- Split a character list at a delimiter. -/
def splitFields (delim : Char) (cs : List Char) : List (List Char) :=
  splitFieldsAux delim cs []

/-- Parse a decimal digit sequence. -/
def parseNatChars : List Char → Option Nat
  | [] => none
  | [c] => if c.isDigit then some (c.toNat - 48) else none
  | c :: rest =>
    if c.isDigit then
      match parseNatChars rest with
      | some n => some ((c.toNat - 48) * 10 ^ rest.length + n)
      | none => none
    else none

/-- Parse an optionally-signed decimal integer. -/
def parseIntChars : List Char → Option Int
  | [] => none
  | c :: rest =>
    if c = '-' then (parseNatChars rest).map (fun n => -(n : Int))
    else (parseNatChars (c :: rest)).map (fun n => (n : Int))

/-- Parse one BED line: tab-delimited `chrom start end [name ...]`.
Returns `none` when the line has fewer than three fields or a
non-integer coordinate. -/
def parseBedLine (l : String) : Option Region :=
  match splitFields '\t' l.toList with
  | c :: s :: e :: rest =>
    match parseIntChars s, parseIntChars e with
    | some si, some ei => some ⟨String.mk c, si, ei, String.mk (rest.headD [])⟩
    | _, _ => none
  | _ => none

/-- Modelled from the spec: `genome_tools.Region.read_bedfile` parses every
line; unparsable BED content surfaces `MalformedInputError`. -/
def read_bedfile (lines : List String) : Except PyErr (List Region) :=
  if lines.all (fun l => (parseBedLine l).isSome) then
    .ok (lines.filterMap parseBedLine)
  else
    .error .malformedInput

/-- Modelled from the spec: the ORIGINAL `genome_tools.Genome.check_region`
coordinate validation, `0 ≤ start < end ≤ chromosome length`.  Kept only
to witness what the monkey patch disables. -/
def check_region_strict (g : Genome) (r : Region) : Bool :=
  match g r.chrom with
  | none => false
  | some len => 0 ≤ r.start && r.start < r.stop && r.stop ≤ len

/-- Embedding of `genome_tools.Genome.check_region` AS MONKEY-PATCHED in
`prepare_assets.py` line 6: `lambda self, region: None` — it never
reports an error. -/
def check_region (_g : Genome) (_r : Region) : Option PyErr :=
  none

/-- Modelled from the spec: `genome_tools.RegionSet.__init__` runs the
genome's per-region check over the given regions; the first reported
error aborts construction, otherwise the regions are kept as-is. -/
def build_region_set (check : Region → Option PyErr) (rs : List Region) :
    Except PyErr (List Region) :=
  match rs.findSome? check with
  | some e => .error e
  | none => .ok rs

/-- Embedding of `prepare_assets.prepare_region_set`, with the file content already read
as lines: parse the BED lines and build a RegionSet against the genome
(whose `check_region` is the monkey-patched no-op). -/
def prepare_region_set (lines : List String) (g : Genome) :
    Except PyErr (List Region) := do
  let rs ← read_bedfile lines
  build_region_set (check_region g) rs

/-! ## extract_features.py -/

/-- Embedding of `is_empty_file`: `os.stat(file).st_size == 0`; raises
`FileNotFoundError` when the file does not exist. -/
def is_empty_file (fs : FileSystem) (file : String) : Except PyErr Bool :=
  match fs file with
  | none => .error .fileNotFound
  | some lines => .ok lines.isEmpty

/-- Embedding of `extract_region_names`: the per-region annotations (first annotation
field, i.e. the BED name column) of a region set, in order. -/
def extract_region_names (rs : List Region) : List String :=
  rs.map (fun r => r.name)

/-- Embedding of `_extract_features`, generic in the query-region-collection builder
`build` (the source calls `prepare_region_set`; quantifying over `build`
makes the fast path's independence from region-collection construction
provable): empty-file fast path returning zeros, otherwise build the
query collection and row-sum the basic RP map. -/
noncomputable def _extract_features_core
    (build : List String → Except PyErr (List Region))
    (fs : FileSystem) (bed_file : String) (gene_loc_set : RegionSet)
    (decay : ℝ) : Except PyErr (List ℝ) :=
  match fs bed_file with
  | none => .error .fileNotFound
  | some lines =>
    if lines.isEmpty then
      .ok (List.replicate gene_loc_set.regions.length 0)
    else
      match build lines with
      | .error e => .error e
      | .ok qs => .ok (rp_scores gene_loc_set.regions qs decay)

/-- Embedding of `_extract_features` as in the source: the builder is
`prepare_region_set` against the gene location set's genome. -/
noncomputable def _extract_features (fs : FileSystem) (bed_file : String)
    (gene_loc_set : RegionSet) (decay : ℝ) : Except PyErr (List ℝ) :=
  _extract_features_core (fun lines => prepare_region_set lines gene_loc_set.genome)
    fs bed_file gene_loc_set decay

/-- Embedding of `extract_features`: the feature values paired with the reference
region names (the pandas Series index). -/
noncomputable def extract_features (fs : FileSystem) (bed_file : String)
    (gene_loc_set : RegionSet) (decay : ℝ) :
    Except PyErr (List (String × ℝ)) :=
  match _extract_features fs bed_file gene_loc_set decay with
  | .error e => .error e
  | .ok v => .ok ((extract_region_names gene_loc_set.regions).zip v)

/-! ## extract_features_chip_atlas.py — ripgrep filtering and caching -/

/-- Whether `pat` occurs as a contiguous run inside `l`. -/
def occurs_in (pat : List Char) : List Char → Bool
  | [] => pat.isEmpty
  | c :: rest => pat.isPrefixOf (c :: rest) || occurs_in pat rest

/-- Modelled from ripgrep: `rg -N pattern file` selects the lines in which
the pattern matches.  The name is handed to rg as a regular expression;
for a metacharacter-free name this is substring containment, which is
how it is modelled here. -/
def rg_filter (pattern : String) (lines : List String) : List String :=
  lines.filter (fun l => occurs_in pattern.toList l.toList)

/-- Embedding of `_extract_features_ripgrep`: run
`subprocess.run(["rg", "-N", name, bed_file], stdout=stdout, check=True)`
(the caller has already opened `stdout_path` for writing, truncating it),
then extract features from the written file.  rg exits 2 when it cannot
read `bed_file`, 1 when no line matches; `check=True` turns a nonzero
exit status into `CalledProcessError`. -/
noncomputable def _extract_features_ripgrep (fs : FileSystem)
    (bed_file name stdout_path : String) (gene_loc_set : RegionSet)
    (decay : ℝ) : Except PyErr (List ℝ) × FileSystem :=
  match fs bed_file with
  | none => (.error (.calledProcessError 2), fs)
  | some mergedLines =>
    if (rg_filter name mergedLines).isEmpty then
      (.error (.calledProcessError 1),
        fsWrite fs stdout_path (rg_filter name mergedLines))
    else
      (_extract_features (fsWrite fs stdout_path (rg_filter name mergedLines))
          stdout_path gene_loc_set decay,
        fsWrite fs stdout_path (rg_filter name mergedLines))

/-- The cache path `{data_dir}/{name}.bed` chosen by `get_data_path`. -/
def cache_path (data_dir name : String) : String :=
  data_dir ++ "/" ++ name ++ ".bed"

/-- Embedding of `process_bed_file_for_name`: cache hit (`data_path` exists) extracts
straight from the cache file; otherwise the output file is opened for
writing — `open(data_path, "w")`, creating or truncating it BEFORE the
filter runs — or a named temporary file `tmp` is used (and deleted on
context-manager exit) when no `data_dir` is configured. -/
noncomputable def process_bed_file_for_name (fs : FileSystem)
    (bed_file name : String) (gene_loc_set : RegionSet) (decay : ℝ)
    (data_dir : Option String) (tmp : String) :
    Except PyErr (List ℝ) × FileSystem :=
  match data_dir with
  | some d =>
    match fs (cache_path d name) with
    | some _ => (_extract_features fs (cache_path d name) gene_loc_set decay, fs)
    | none =>
      _extract_features_ripgrep (fsWrite fs (cache_path d name) []) bed_file name
        (cache_path d name) gene_loc_set decay
  | none =>
    ((_extract_features_ripgrep (fsWrite fs tmp []) bed_file name tmp
        gene_loc_set decay).1,
      fsErase (_extract_features_ripgrep (fsWrite fs tmp []) bed_file name tmp
        gene_loc_set decay).2 tmp)

/-- C1 helper: an always-failing region-collection builder, standing for an
interval-index backend that errors on (empty) input. -/
def failing_build : List String → Except PyErr (List Region) :=
  fun _ => .error .valueError

/-- C1 helper: a filesystem holding exactly one zero-byte file. -/
def fsEmptyPeak : FileSystem :=
  fun p => if p = "peak.bed" then some [] else none

/-- C1 helper: a two-region reference set over a trivial genome. -/
def glsTwo : RegionSet :=
  ⟨fun _ => some 1000000, [⟨"chr1", 1000, 1001, "geneA"⟩, ⟨"chr1", 5000, 5001, "geneB"⟩]⟩

/-- Claim C1: For every reference set and every zero-byte peak file, single
file extraction returns the zero vector of length `len(R)` — with the
same index labels as the non-empty case — for EVERY region-collection
builder, including one that errors on its input: the fast path never
constructs a query RegionCollection from the empty file. -/
theorem C1_empty_file_zero_vector
    (build : List String → Except PyErr (List Region))
    (fs : FileSystem) (bed_file : String) (gls : RegionSet) (decay : ℝ)
    (h : fs bed_file = some []) :
    _extract_features_core build fs bed_file gls decay
        = .ok (List.replicate gls.regions.length 0)
      ∧ extract_features fs bed_file gls decay
        = .ok ((extract_region_names gls.regions).zip
            (List.replicate gls.regions.length 0)) := by
  constructor
  · unfold _extract_features_core
    rw [h]
    simp
  · unfold extract_features _extract_features _extract_features_core
    rw [h]
    simp

/-- C1 witness: on a concrete zero-byte file and a two-region reference
set, extraction succeeds with the zero vector even under an
always-failing builder. -/
theorem C1_empty_file_zero_vector_witness :
    fsEmptyPeak "peak.bed" = some []
      ∧ (_extract_features_core failing_build fsEmptyPeak "peak.bed" glsTwo 10000
          = .ok (List.replicate glsTwo.regions.length 0)
        ∧ extract_features fsEmptyPeak "peak.bed" glsTwo 10000
          = .ok ((extract_region_names glsTwo.regions).zip
              (List.replicate glsTwo.regions.length 0))) :=
  ⟨rfl, C1_empty_file_zero_vector failing_build fsEmptyPeak "peak.bed" glsTwo 10000 rfl⟩

/-- Shared concrete filesystem: one merged two-line BED file. -/
def fsMergedC : FileSystem :=
  fun p =>
    if p = "merged.bed" then
      some ["chr1\t0\t10\tCTCF", "chr1\t20\t30\tSTAT10"]
    else none

/-- Claim C3 counterexample: With a merged file in which the requested name
`GATA2` has zero matching lines, named-subset extraction does NOT
produce a zero vector: rg exits 1, `check=True` raises
`CalledProcessError`. -/
theorem C3_counterexample :
    (process_bed_file_for_name fsMergedC "merged.bed" "GATA2" glsTwo 10000
        (some "cache") "tmpfile").1 = .error (.calledProcessError 1)
      ∧ (process_bed_file_for_name fsMergedC "merged.bed" "GATA2" glsTwo 10000
          (some "cache") "tmpfile").1
        ≠ .ok (List.replicate glsTwo.regions.length 0) := by
  have h : (process_bed_file_for_name fsMergedC "merged.bed" "GATA2" glsTwo 10000
      (some "cache") "tmpfile").1 = .error (.calledProcessError 1) := by rfl
  exact ⟨h, by rw [h]; exact fun hc => Except.noConfusion hc⟩

/-- Claim C3 amended: A requested name with zero matching lines in the merged
file makes named-subset extraction FAIL with `CalledProcessError`
(ripgrep exits 1 and the filter runs under `check=True`); it is not
treated like an empty input and no zero vector is produced. -/
theorem C3_no_match_raises (fs : FileSystem)
    (bed_file name stdout_path d tmp : String) (gls : RegionSet) (decay : ℝ)
    (L : List String) (hbed : fs bed_file = some L)
    (hnomatch : rg_filter name L = [])
    (hmiss : fs (cache_path d name) = none) :
    (_extract_features_ripgrep fs bed_file name stdout_path gls decay).1
        = .error (.calledProcessError 1)
      ∧ (process_bed_file_for_name fs bed_file name gls decay (some d) tmp).1
        = .error (.calledProcessError 1) := by
  have hne : bed_file ≠ cache_path d name := by
    intro hEq
    rw [hEq, hmiss] at hbed
    exact Option.noConfusion hbed
  have hbed1 : fsWrite fs (cache_path d name) [] bed_file = some L := by
    unfold fsWrite
    rw [if_neg hne, hbed]
  constructor
  · simp only [_extract_features_ripgrep, hbed, hnomatch, List.isEmpty_nil, if_true]
  · simp only [process_bed_file_for_name, hmiss, _extract_features_ripgrep, hbed1,
      hnomatch, List.isEmpty_nil, if_true]

/-- C3 witness: the amended behaviour on the concrete merged file. -/
theorem C3_no_match_raises_witness :
    (fsMergedC "merged.bed" = some ["chr1\t0\t10\tCTCF", "chr1\t20\t30\tSTAT10"]
        ∧ rg_filter "GATA2" ["chr1\t0\t10\tCTCF", "chr1\t20\t30\tSTAT10"] = []
        ∧ fsMergedC (cache_path "cache" "GATA2") = none)
      ∧ (_extract_features_ripgrep fsMergedC "merged.bed" "GATA2" "out.bed" glsTwo
            10000).1 = .error (.calledProcessError 1)
      ∧ (process_bed_file_for_name fsMergedC "merged.bed" "GATA2" glsTwo 10000
          (some "cache") "tmpfile").1 = .error (.calledProcessError 1) := by
  have h := C3_no_match_raises fsMergedC "merged.bed" "GATA2" "out.bed" "cache"
    "tmpfile" glsTwo 10000 ["chr1\t0\t10\tCTCF", "chr1\t20\t30\tSTAT10"]
    rfl (by decide) rfl
  exact ⟨⟨rfl, by decide, rfl⟩, h.1, h.2⟩

/-- Following the claim's words (refinement comparison, NOT from the
source): an exact-match line filter — a line is selected iff the
requested name equals one of its tab-delimited fields. -/
def exact_token_filter (name : String) (lines : List String) : List String :=
  lines.filter (fun l => (splitFields '\t' l.toList).contains name.toList)

/-- Claim C4 counterexample: Requesting `STAT1` against a merged file whose
only `STAT`-line is named `STAT10`: the exact-delimited-token filter the
claim prescribes selects nothing, yet the pipeline's cache file ends up
holding the `STAT10` line — the code filters by regex/substring match
(the name is handed to rg as a pattern), so a line whose name field
merely CONTAINS the requested name is selected. -/
theorem C4_counterexample :
    exact_token_filter "STAT1" ["chr1\t0\t10\tCTCF", "chr1\t20\t30\tSTAT10"] = []
      ∧ (process_bed_file_for_name fsMergedC "merged.bed" "STAT1" glsTwo 10000
          (some "cache") "tmpfile").2 (cache_path "cache" "STAT1")
        = some ["chr1\t20\t30\tSTAT10"] := by
  constructor
  · decide
  · rfl

/-- Claim C4 amended: On a cache miss, named-subset extraction selects the
lines of the merged file in which the requested name occurs as a
SUBSTRING (the name is passed to ripgrep as a regex pattern, not an
exact delimited-token filter), and materializes exactly those lines into
the cache file; a line whose name field merely contains the requested
name as a substring IS selected. -/
theorem C4_substring_filter (fs : FileSystem) (bed_file name d tmp : String)
    (gls : RegionSet) (decay : ℝ) (L : List String)
    (hbed : fs bed_file = some L)
    (hmiss : fs (cache_path d name) = none) :
    (process_bed_file_for_name fs bed_file name gls decay (some d) tmp).2
        (cache_path d name)
      = some (L.filter (fun l => occurs_in name.toList l.toList)) := by
  have hne : bed_file ≠ cache_path d name := by
    intro hEq
    rw [hEq, hmiss] at hbed
    exact Option.noConfusion hbed
  have hbed1 : fsWrite fs (cache_path d name) [] bed_file = some L := by
    unfold fsWrite
    rw [if_neg hne, hbed]
  have hcache : ∀ c : List String,
      fsWrite (fsWrite fs (cache_path d name) []) (cache_path d name) c
          (cache_path d name) = some c := by
    intro c
    unfold fsWrite
    rw [if_pos rfl]
  simp only [process_bed_file_for_name, hmiss, _extract_features_ripgrep, hbed1]
  by_cases hE : (rg_filter name L).isEmpty
  · simp only [hE, if_true, hcache]
    rw [List.isEmpty_iff] at hE
    rw [show L.filter (fun l => occurs_in name.toList l.toList) = rg_filter name L
      from rfl, hE]
  · rw [Bool.not_eq_true] at hE
    simp only [hE, Bool.false_eq_true, if_false]
    exact hcache _

/-- C4 witness: the amended behaviour on the concrete merged file. -/
theorem C4_substring_filter_witness :
    (fsMergedC "merged.bed" = some ["chr1\t0\t10\tCTCF", "chr1\t20\t30\tSTAT10"]
        ∧ fsMergedC (cache_path "cache" "STAT1") = none)
      ∧ (process_bed_file_for_name fsMergedC "merged.bed" "STAT1" glsTwo 10000
          (some "cache") "tmpfile").2 (cache_path "cache" "STAT1")
        = some (["chr1\t0\t10\tCTCF", "chr1\t20\t30\tSTAT10"].filter
            (fun l => occurs_in "STAT1".toList l.toList)) :=
  ⟨⟨rfl, rfl⟩, C4_substring_filter fsMergedC "merged.bed" "STAT1" "cache" "tmpfile"
    glsTwo 10000 ["chr1\t0\t10\tCTCF", "chr1\t20\t30\tSTAT10"] rfl rfl⟩

/-- Claim C5: With a cache directory configured and `{cacheDir}/{name}.bed`
initially absent, a first successful-filter call materializes exactly
the filtered lines into the cache file, and a second call with the same
`(mergedFile, name, cacheDir)`: (i) returns a bit-identical feature
vector, (ii) leaves the filesystem (hence the cache file) completely
untouched, and (iii) is literally the cache-hit path — it reads the
existing cache file instead of re-filtering. -/
theorem C5_cache_pure_memoization (fs : FileSystem)
    (bed_file name d tmp tmp2 : String) (gls : RegionSet) (decay : ℝ)
    (L : List String) (hbed : fs bed_file = some L)
    (hmiss : fs (cache_path d name) = none)
    (hmm : (rg_filter name L).isEmpty = false) :
    (process_bed_file_for_name fs bed_file name gls decay (some d) tmp).2
        (cache_path d name) = some (rg_filter name L)
      ∧ process_bed_file_for_name
          (process_bed_file_for_name fs bed_file name gls decay (some d) tmp).2
          bed_file name gls decay (some d) tmp2
        = (_extract_features
            (process_bed_file_for_name fs bed_file name gls decay (some d) tmp).2
            (cache_path d name) gls decay,
          (process_bed_file_for_name fs bed_file name gls decay (some d) tmp).2)
      ∧ (process_bed_file_for_name
            (process_bed_file_for_name fs bed_file name gls decay (some d) tmp).2
            bed_file name gls decay (some d) tmp2).1
        = (process_bed_file_for_name fs bed_file name gls decay (some d) tmp).1 := by
  have hne : bed_file ≠ cache_path d name := by
    intro hEq
    rw [hEq, hmiss] at hbed
    exact Option.noConfusion hbed
  have hbed1 : fsWrite fs (cache_path d name) [] bed_file = some L := by
    unfold fsWrite
    rw [if_neg hne, hbed]
  have hcache : ∀ c : List String,
      fsWrite (fsWrite fs (cache_path d name) []) (cache_path d name) c
          (cache_path d name) = some c := by
    intro c
    unfold fsWrite
    rw [if_pos rfl]
  have h1 : process_bed_file_for_name fs bed_file name gls decay (some d) tmp
      = (_extract_features
          (fsWrite (fsWrite fs (cache_path d name) []) (cache_path d name)
            (rg_filter name L))
          (cache_path d name) gls decay,
        fsWrite (fsWrite fs (cache_path d name) []) (cache_path d name)
          (rg_filter name L)) := by
    simp only [process_bed_file_for_name, hmiss, _extract_features_ripgrep, hbed1,
      hmm, Bool.false_eq_true, if_false]
  rw [h1]
  refine ⟨hcache _, ?_, ?_⟩
  · simp only [process_bed_file_for_name, hcache]
  · simp only [process_bed_file_for_name, hcache]

/-- C5 witness: concrete merged file, name `CTCF` with one matching line;
the hypotheses are discharged by evaluation. -/
theorem C5_cache_pure_memoization_witness :
    (fsMergedC "merged.bed" = some ["chr1\t0\t10\tCTCF", "chr1\t20\t30\tSTAT10"]
        ∧ fsMergedC (cache_path "cache" "CTCF") = none
        ∧ (rg_filter "CTCF" ["chr1\t0\t10\tCTCF", "chr1\t20\t30\tSTAT10"]).isEmpty
          = false)
      ∧ (process_bed_file_for_name fsMergedC "merged.bed" "CTCF" glsTwo 10000
          (some "cache") "tmpA").2 (cache_path "cache" "CTCF")
        = some (rg_filter "CTCF" ["chr1\t0\t10\tCTCF", "chr1\t20\t30\tSTAT10"])
      ∧ (process_bed_file_for_name
            (process_bed_file_for_name fsMergedC "merged.bed" "CTCF" glsTwo 10000
              (some "cache") "tmpA").2
            "merged.bed" "CTCF" glsTwo 10000 (some "cache") "tmpB").1
        = (process_bed_file_for_name fsMergedC "merged.bed" "CTCF" glsTwo 10000
            (some "cache") "tmpA").1 := by
  have h := C5_cache_pure_memoization fsMergedC "merged.bed" "CTCF" "cache" "tmpA"
    "tmpB" glsTwo 10000 ["chr1\t0\t10\tCTCF", "chr1\t20\t30\tSTAT10"]
    rfl rfl (by decide)
  exact ⟨⟨rfl, rfl, by decide⟩, h.1, h.2.2⟩

/-- Claim C10: On a cache miss with a cache directory configured, the cache
file is created (truncated) before the filter runs, so after ANY outcome
of the first call — in particular a failing one — the cache file exists;
a subsequent call for the same name is literally the cache-hit path on
that leftover file (it touches nothing and never re-filters), and in the
zero-matching-lines failure case it returns the zero vector read from
the leftover empty cache file. -/
theorem C10_failed_filter_leaves_cache (fs : FileSystem)
    (bed_file name d tmp tmp2 : String) (gls : RegionSet) (decay : ℝ)
    (hmiss : fs (cache_path d name) = none)
    (_hfail : isOk
      (process_bed_file_for_name fs bed_file name gls decay (some d) tmp).1
        = false) :
    ((process_bed_file_for_name fs bed_file name gls decay (some d) tmp).2
        (cache_path d name)).isSome = true
      ∧ process_bed_file_for_name
          (process_bed_file_for_name fs bed_file name gls decay (some d) tmp).2
          bed_file name gls decay (some d) tmp2
        = (_extract_features
            (process_bed_file_for_name fs bed_file name gls decay (some d) tmp).2
            (cache_path d name) gls decay,
          (process_bed_file_for_name fs bed_file name gls decay (some d) tmp).2)
      ∧ (∀ L, fs bed_file = some L → rg_filter name L = [] →
          (process_bed_file_for_name
              (process_bed_file_for_name fs bed_file name gls decay (some d) tmp).2
              bed_file name gls decay (some d) tmp2).1
            = .ok (List.replicate gls.regions.length 0)) := by
  have hcache : ∀ c q,
      fsWrite (fsWrite fs (cache_path d name) []) (cache_path d name) c q
        = fsWrite fs (cache_path d name) c q := by
    intro c q
    unfold fsWrite
    by_cases hq : q = cache_path d name
    · rw [if_pos hq, if_pos hq]
    · rw [if_neg hq, if_neg hq, if_neg hq]
  have hsome : ((process_bed_file_for_name fs bed_file name gls decay (some d)
      tmp).2 (cache_path d name)).isSome = true := by
    simp only [process_bed_file_for_name, hmiss, _extract_features_ripgrep]
    cases hb : fsWrite fs (cache_path d name) [] bed_file with
    | none => simp [fsWrite]
    | some L =>
      by_cases hE : (rg_filter name L).isEmpty
      · simp [hE, fsWrite]
      · rw [Bool.not_eq_true] at hE
        simp [hE, fsWrite]
  refine ⟨hsome, ?_, ?_⟩
  · rw [Option.isSome_iff_exists] at hsome
    obtain ⟨c, hc⟩ := hsome
    generalize hg : (process_bed_file_for_name fs bed_file name gls decay (some d)
      tmp).2 = fs1 at hc ⊢
    simp only [process_bed_file_for_name, hc]
  · intro L hbed hnomatch
    have hne : bed_file ≠ cache_path d name := by
      intro hEq
      rw [hEq, hmiss] at hbed
      exact Option.noConfusion hbed
    have hbed1 : fsWrite fs (cache_path d name) [] bed_file = some L := by
      unfold fsWrite
      rw [if_neg hne, hbed]
    have h1 : process_bed_file_for_name fs bed_file name gls decay (some d) tmp
        = (.error (.calledProcessError 1),
          fsWrite (fsWrite fs (cache_path d name) []) (cache_path d name)
            (rg_filter name L)) := by
      simp only [process_bed_file_for_name, hmiss, _extract_features_ripgrep, hbed1,
        hnomatch, List.isEmpty_nil, if_true]
    have hcempty : (fsWrite (fsWrite fs (cache_path d name) []) (cache_path d name)
        (rg_filter name L)) (cache_path d name) = some [] := by
      unfold fsWrite
      rw [if_pos rfl, hnomatch]
    rw [h1]
    simp only [process_bed_file_for_name, hcempty, _extract_features, hcempty,
      _extract_features_core, List.isEmpty_nil, if_true]

/-- C10 witness: the `GATA2` no-match failure leaves `cache/GATA2.bed`
behind, and the follow-up call silently returns the zero vector from
it. -/
theorem C10_failed_filter_leaves_cache_witness :
    (fsMergedC (cache_path "cache" "GATA2") = none
        ∧ isOk (process_bed_file_for_name fsMergedC "merged.bed" "GATA2" glsTwo
            10000 (some "cache") "tmpA").1 = false)
      ∧ ((process_bed_file_for_name fsMergedC "merged.bed" "GATA2" glsTwo 10000
          (some "cache") "tmpA").2 (cache_path "cache" "GATA2")).isSome = true
      ∧ (process_bed_file_for_name
            (process_bed_file_for_name fsMergedC "merged.bed" "GATA2" glsTwo 10000
              (some "cache") "tmpA").2
            "merged.bed" "GATA2" glsTwo 10000 (some "cache") "tmpB").1
        = .ok (List.replicate glsTwo.regions.length 0) := by
  have h := C10_failed_filter_leaves_cache fsMergedC "merged.bed" "GATA2" "cache"
    "tmpA" "tmpB" glsTwo 10000 rfl (by rfl)
  exact ⟨⟨rfl, by rfl⟩, h.1,
    h.2.2 ["chr1\t0\t10\tCTCF", "chr1\t20\t30\tSTAT10"] rfl (by decide)⟩

/-- C7 helper: a query region and a reference region that overlap. -/
def qOv : Region := ⟨"chr1", 0, 10, "peak"⟩

/-- C7 helper: the overlapped reference region. -/
def rOv : Region := ⟨"chr1", 5, 8, "gene"⟩

/-- Claim C7: The per-pair proximity weight is `exp(-|d| / decay)` with
overlap treated as distance 0 (modelled from the spec, since
`lisa.core.data_interface._make_basic_rp_map` is an external
dependency): a query region overlapping a reference region contributes
weight exactly 1 whatever the decay constant, every pair weight is at
most 1, and a reference region fully overlapped by every query region
scores the maximum attainable — 1 per overlapping query region. -/
theorem C7_overlap_weight_max (decay : ℝ) (hd : 0 < decay) (q r : Region)
    (hov : overlaps q r = true) (qs : List Region)
    (hqs : ∀ p ∈ qs, overlaps p r = true) :
    pair_weight (genomic_distance q r) decay = 1
      ∧ (∀ d : Int, pair_weight d decay ≤ 1)
      ∧ ref_score r qs decay = (qs.length : ℝ) := by
  have hw : ∀ p : Region, overlaps p r = true →
      pair_weight (genomic_distance p r) decay = 1 := by
    intro p hp
    unfold genomic_distance
    rw [hp]
    simp only [if_true]
    unfold pair_weight
    norm_num [Real.exp_zero]
  refine ⟨hw q hov, ?_, ?_⟩
  · intro dist
    unfold pair_weight
    have hx : -((dist.natAbs : ℝ)) / decay ≤ 0 := by
      apply div_nonpos_of_nonpos_of_nonneg
      · simp [Nat.cast_nonneg]
      · exact hd.le
    calc Real.exp (-(dist.natAbs : ℝ) / decay) ≤ Real.exp 0 := Real.exp_le_exp.mpr hx
      _ = 1 := Real.exp_zero
  · unfold ref_score
    rw [List.map_congr_left (fun p hp => hw p (hqs p hp))]
    rw [List.map_const']
    rw [List.sum_replicate]
    simp

/-- C7 witness: concrete overlapping regions at decay 2. -/
theorem C7_overlap_weight_max_witness :
    ((0:ℝ) < 2 ∧ overlaps qOv rOv = true ∧ ∀ p ∈ [qOv], overlaps p rOv = true)
      ∧ pair_weight (genomic_distance qOv rOv) 2 = 1
      ∧ (∀ d : Int, pair_weight d 2 ≤ 1)
      ∧ ref_score rOv [qOv] 2 = (([qOv].length : Nat) : ℝ) :=
  ⟨⟨by norm_num, by decide, by decide⟩,
    C7_overlap_weight_max 2 (by norm_num) qOv rOv (by decide) [qOv] (by decide)⟩

/-- C8 helper: a miniature genome with a single 100-base chromosome. -/
def gSmall : Genome := fun c => if c = "chr1" then some 100 else none

/-- C8 helper: a region violating the documented coordinate invariant on
both sides (negative start, stop past the chromosome length). -/
def badRegion : Region := ⟨"chr1", -5, 200, "bad"⟩

/-- Claim C8: Per-region coordinate validation is disabled by the monkey
patch `genome_tools.Genome.check_region = lambda self, region: None` in
prepare_assets.py: building a region collection never raises a
coordinate-range error and keeps every region as-is — even when some
region fails the original `0 ≤ start < stop ≤ chromosome length` check —
and `prepare_region_set` succeeds on any parseable BED content. -/
theorem C8_coordinate_validation_disabled (g : Genome) (rs : List Region)
    (_hbad : ∃ r ∈ rs, check_region_strict g r = false) :
    build_region_set (check_region g) rs = .ok rs
      ∧ (∀ lines rs2, read_bedfile lines = .ok rs2 →
          prepare_region_set lines g = .ok rs2) := by
  have hnone : ∀ l : List Region, l.findSome? (check_region g) = none := by
    intro l
    induction l with
    | nil => rfl
    | cons a t ih => simp [List.findSome?, check_region, ih]
  have hbuild : ∀ l : List Region, build_region_set (check_region g) l = .ok l := by
    intro l
    unfold build_region_set
    rw [hnone]
  refine ⟨hbuild rs, ?_⟩
  intro lines rs2 hparse
  unfold prepare_region_set
  rw [hparse]
  exact hbuild rs2

/-- C8 witness: the out-of-range region is rejected by the original check
yet accepted and kept as-is by the patched pipeline, and the same BED
line sails through `prepare_region_set`. -/
theorem C8_coordinate_validation_disabled_witness :
    (∃ r ∈ [badRegion], check_region_strict gSmall r = false)
      ∧ build_region_set (check_region gSmall) [badRegion] = .ok [badRegion]
      ∧ (∀ lines rs2, read_bedfile lines = .ok rs2 →
          prepare_region_set lines gSmall = .ok rs2) :=
  ⟨by decide, C8_coordinate_validation_disabled gSmall [badRegion] (by decide)⟩

/-! ## Batch orchestration
(extract_features_parallel.py and extract_features_chip_atlas.py)

Both batch entry points submit one task per input, keep a futures
dictionary mapping each future to its ORIGINAL input index, iterate
`as_completed(futures)`, and write `results[index] = future.result()`.
The nondeterministic completion order is modelled by an explicit
parameter `perm : List Nat`: the task indices in completion order.
For the chip-atlas batch, worker-process execution is modelled as a
sequential interleaving of whole tasks in completion order, threading
the shared on-disk filesystem through the tasks. -/

/-- Modelled from numpy's documented behaviour: `np.stack` raises
`ValueError` (need at least one array to stack) on an empty sequence;
otherwise `np.stack(results).T` arranges `results[i]` as column `i`, so
the resulting feature matrix is represented by its list of columns. -/
def np_stack_T (results : List (List ℝ)) : Except PyErr (List (List ℝ)) :=
  if results.isEmpty then .error .valueError else .ok results

/-- One iteration of the `as_completed` collection loop:
`future.result()` re-raises the task's exception as-is (fail-fast at the
first completed failing future); a successful value is written into the
slot array at the original input index `futures[future]`. -/
def collect_step (outcomes : List (Except PyErr (List ℝ)))
    (acc : Except PyErr (List (Option (List ℝ)))) (i : Nat) :
    Except PyErr (List (Option (List ℝ))) :=
  match acc with
  | .error e => .error e
  | .ok slots =>
    match outcomes[i]? with
    | none => .ok slots
    | some (.ok v) => .ok (slots.set i (some v))
    | some (.error e) => .error e

/-- The collection loop over the completion order. -/
def collect_results (outcomes : List (Except PyErr (List ℝ)))
    (perm : List Nat) : Except PyErr (List (Option (List ℝ))) :=
  perm.foldl (collect_step outcomes) (.ok (List.replicate outcomes.length none))

/-- Embedding of `extract_features_parallel`: one `_extract_features` task per BED file
(every worker holds the shared `gene_loc_set`), collected in completion
order, assembled by `np.stack(results).T` into columns in input
order. -/
noncomputable def extract_features_parallel (fs : FileSystem)
    (bed_files : List String) (gls : RegionSet) (decay : ℝ)
    (perm : List Nat) : Except PyErr (List (List ℝ)) :=
  match collect_results (bed_files.map (fun f => _extract_features fs f gls decay))
      perm with
  | .error e => .error e
  | .ok slots => np_stack_T (slots.map (fun s => s.getD []))

/-- One chip-atlas batch step: run the task for input index `i`
(`process_bed_file_for_name` with this batch's shared merged file, cache
directory and the worker-shared `gene_loc_set`) on the current
filesystem, fail-fast on its exception, otherwise write the vector into
the slot for index `i`. -/
noncomputable def chip_step (bed_file : String) (names : List String)
    (gls : RegionSet) (decay : ℝ) (data_dir : Option String)
    (tmp : Nat → String)
    (acc : Except PyErr (List (Option (List ℝ))) × FileSystem) (i : Nat) :
    Except PyErr (List (Option (List ℝ))) × FileSystem :=
  match acc with
  | (.error e, fs) => (.error e, fs)
  | (.ok slots, fs) =>
    match names[i]? with
    | none => (.ok slots, fs)
    | some nm =>
      match process_bed_file_for_name fs bed_file nm gls decay data_dir (tmp i) with
      | (.error e, fs1) => (.error e, fs1)
      | (.ok v, fs1) => (.ok (slots.set i (some v)), fs1)

/-- The chip-atlas task/collection loop over the completion order. -/
noncomputable def run_chip_tasks (fs : FileSystem) (bed_file : String)
    (names : List String) (gls : RegionSet) (decay : ℝ)
    (data_dir : Option String) (tmp : Nat → String) (perm : List Nat) :
    Except PyErr (List (Option (List ℝ))) × FileSystem :=
  perm.foldl (chip_step bed_file names gls decay data_dir tmp)
    (.ok (List.replicate names.length none), fs)

/-- Embedding of `extract_features_chip_atlas`: one `process_bed_file_for_name` task per
requested name against one shared merged BED file, fail-fast collection,
then `np.stack(results).T`. -/
noncomputable def extract_features_chip_atlas (fs : FileSystem)
    (bed_file : String) (names : List String) (gls : RegionSet) (decay : ℝ)
    (data_dir : Option String) (tmp : Nat → String) (perm : List Nat) :
    Except PyErr (List (List ℝ)) × FileSystem :=
  match run_chip_tasks fs bed_file names gls decay data_dir tmp perm with
  | (.error e, fs1) => (.error e, fs1)
  | (.ok slots, fs1) => (np_stack_T (slots.map (fun s => s.getD [])), fs1)

/-- With no tasks at all, the collection loop returns the slots
unchanged. -/
theorem collect_results_no_outcomes (perm : List Nat)
    (slots : List (Option (List ℝ))) :
    perm.foldl (collect_step []) (.ok slots) = .ok slots := by
  induction perm with
  | nil => rfl
  | cons i rest ih =>
    rw [List.foldl_cons, show collect_step [] (.ok slots) i = .ok slots by
      simp [collect_step]]
    exact ih

/-- With no tasks at all, the chip-atlas loop returns slots and filesystem
unchanged. -/
theorem chip_tasks_no_names (bed_file : String) (gls : RegionSet) (decay : ℝ)
    (data_dir : Option String) (tmp : Nat → String) (perm : List Nat)
    (slots : List (Option (List ℝ))) (fs : FileSystem) :
    perm.foldl (chip_step bed_file [] gls decay data_dir tmp) (.ok slots, fs)
      = (.ok slots, fs) := by
  induction perm with
  | nil => rfl
  | cons i rest ih =>
    rw [List.foldl_cons, show chip_step bed_file [] gls decay data_dir tmp
      (.ok slots, fs) i = (.ok slots, fs) by simp [chip_step]]
    exact ih

/-- Claim C9: On the empty input list, both batch entry points raise
`ValueError` while stacking zero arrays (`np.stack` of an empty
sequence) instead of returning an empty feature matrix. -/
theorem C9_empty_batch_raises (fs : FileSystem) (bed_file : String)
    (gls : RegionSet) (decay : ℝ) (data_dir : Option String)
    (tmp : Nat → String) (perm : List Nat) :
    extract_features_parallel fs [] gls decay perm = .error .valueError
      ∧ (extract_features_chip_atlas fs bed_file [] gls decay data_dir tmp
          perm).1 = .error .valueError := by
  constructor
  · unfold extract_features_parallel collect_results
    rw [List.map_nil, show ([] : List (Except PyErr (List ℝ))).length = 0 from rfl]
    rw [show List.replicate 0 (none : Option (List ℝ)) = [] from rfl]
    rw [collect_results_no_outcomes]
    rfl
  · unfold extract_features_chip_atlas run_chip_tasks
    rw [show ([] : List String).length = 0 from rfl]
    rw [show List.replicate 0 (none : Option (List ℝ)) = [] from rfl]
    rw [chip_tasks_no_names]
    rfl

/-- If every task outcome reachable from the completion order is a
success, the collection loop succeeds; each completed slot holds its
task's value — keyed by the ORIGINAL input index — and slots outside the
completion order are untouched. -/
theorem collect_all_ok (outcomes : List (Except PyErr (List ℝ)))
    (perm : List Nat) :
    ∀ slots : List (Option (List ℝ)),
    (∀ i ∈ perm, ∀ e : PyErr, outcomes[i]? ≠ some (.error e)) →
    ∃ slots',
      perm.foldl (collect_step outcomes) (.ok slots) = .ok slots'
        ∧ slots'.length = slots.length
        ∧ (∀ j (v : List ℝ), j ∈ perm → outcomes[j]? = some (.ok v) →
            j < slots.length → slots'[j]? = some (some v))
        ∧ (∀ j, j ∉ perm → slots'[j]? = slots[j]?) := by
  induction perm with
  | nil =>
    intro slots _
    exact ⟨slots, rfl, rfl, fun j v hj _ _ => absurd hj (List.not_mem_nil j),
      fun j _ => rfl⟩
  | cons i rest ih =>
    intro slots hok
    cases ho : outcomes[i]? with
    | none =>
      have hstep : collect_step outcomes (.ok slots) i = .ok slots := by
        simp [collect_step, ho]
      obtain ⟨slots', h1, h2, h3, h4⟩ :=
        ih slots (fun k hk e => hok k (List.mem_cons_of_mem i hk) e)
      refine ⟨slots', ?_, h2, ?_, ?_⟩
      · rw [List.foldl_cons, hstep]; exact h1
      · intro j v hj hv hlt
        rcases List.mem_cons.mp hj with rfl | hj'
        · rw [ho] at hv; exact Option.noConfusion hv
        · exact h3 j v hj' hv hlt
      · intro j hj
        exact h4 j (fun h => hj (List.mem_cons_of_mem i h))
    | some o =>
      cases o with
      | error e => exact absurd ho (hok i (List.mem_cons_self i rest) e)
      | ok v =>
        have hstep : collect_step outcomes (.ok slots) i
            = .ok (slots.set i (some v)) := by
          simp [collect_step, ho]
        obtain ⟨slots', h1, h2, h3, h4⟩ :=
          ih (slots.set i (some v))
            (fun k hk e => hok k (List.mem_cons_of_mem i hk) e)
        refine ⟨slots', ?_, ?_, ?_, ?_⟩
        · rw [List.foldl_cons, hstep]; exact h1
        · rw [h2, List.length_set]
        · intro j w hj hw hlt
          rcases List.mem_cons.mp hj with rfl | hj'
          · by_cases hjr : j ∈ rest
            · exact h3 j w hjr hw (by rw [List.length_set]; exact hlt)
            · rw [h4 j hjr]
              rw [ho] at hw
              have hvw : v = w := by
                injection hw with hw1
                injection hw1
              rw [← hvw]
              exact List.getElem?_set_eq_of_lt (some v) hlt
          · exact h3 j w hj' hw (by rw [List.length_set]; exact hlt)
        · intro j hj
          have hji : i ≠ j := fun h => hj (h ▸ List.mem_cons_self i rest)
          rw [h4 j (fun h => hj (List.mem_cons_of_mem i h)),
            List.getElem?_set_ne hji]

/-- An exception raised at collection time is final: the loop keeps
re-raising it. -/
theorem collect_error_absorbs (outcomes : List (Except PyErr (List ℝ)))
    (perm : List Nat) (e : PyErr) :
    perm.foldl (collect_step outcomes) (.error e) = .error e := by
  induction perm with
  | nil => rfl
  | cons i rest ih => rw [List.foldl_cons]; exact ih

/-- If some task outcome reachable from the completion order is an
exception, the collection loop re-raises (one of) the task exceptions
unchanged. -/
theorem collect_first_error (outcomes : List (Except PyErr (List ℝ)))
    (perm : List Nat) :
    ∀ slots : List (Option (List ℝ)),
    (∃ i ∈ perm, ∃ e : PyErr, outcomes[i]? = some (.error e)) →
    ∃ e' : PyErr,
      perm.foldl (collect_step outcomes) (.ok slots) = .error e'
        ∧ ∃ j ∈ perm, outcomes[j]? = some (.error e') := by
  induction perm with
  | nil =>
    intro slots hfail
    obtain ⟨i, hi, _⟩ := hfail
    exact absurd hi (List.not_mem_nil i)
  | cons i rest ih =>
    intro slots hfail
    cases ho : outcomes[i]? with
    | none =>
      have hstep : collect_step outcomes (.ok slots) i = .ok slots := by
        simp [collect_step, ho]
      have hfail' : ∃ k ∈ rest, ∃ e : PyErr, outcomes[k]? = some (.error e) := by
        obtain ⟨k, hk, e, he⟩ := hfail
        rcases List.mem_cons.mp hk with rfl | hk'
        · rw [ho] at he; exact Option.noConfusion he
        · exact ⟨k, hk', e, he⟩
      obtain ⟨e', h1, j, hj, hje⟩ := ih slots hfail'
      refine ⟨e', ?_, j, List.mem_cons_of_mem i hj, hje⟩
      rw [List.foldl_cons, hstep]; exact h1
    | some o =>
      cases o with
      | ok v =>
        have hstep : collect_step outcomes (.ok slots) i
            = .ok (slots.set i (some v)) := by
          simp [collect_step, ho]
        have hfail' : ∃ k ∈ rest, ∃ e : PyErr, outcomes[k]? = some (.error e) := by
          obtain ⟨k, hk, e, he⟩ := hfail
          rcases List.mem_cons.mp hk with rfl | hk'
          · rw [ho] at he
            injection he with he1
            exact Except.noConfusion he1
          · exact ⟨k, hk', e, he⟩
        obtain ⟨e', h1, j, hj, hje⟩ := ih (slots.set i (some v)) hfail'
        refine ⟨e', ?_, j, List.mem_cons_of_mem i hj, hje⟩
        rw [List.foldl_cons, hstep]; exact h1
      | error e =>
        have hstep : collect_step outcomes (.ok slots) i = .error e := by
          simp [collect_step, ho]
        refine ⟨e, ?_, i, List.mem_cons_self i rest, ho⟩
        rw [List.foldl_cons, hstep]
        exact collect_error_absorbs outcomes rest e

/-- When every per-file task succeeds, the parallel batch yields the
feature matrix whose column i is the feature vector of `bed_files[i]`,
independently of the completion order. -/
theorem parallel_columns_in_input_order (fs : FileSystem)
    (files : List String) (gls : RegionSet) (decay : ℝ) (perm : List Nat)
    (hne : files ≠ [])
    (hok : ∀ f ∈ files, isOk (_extract_features fs f gls decay) = true)
    (hcov : ∀ i, i < files.length → i ∈ perm) :
    extract_features_parallel fs files gls decay perm
      = .ok (files.map (fun f => okD (_extract_features fs f gls decay) [])) := by
  have hout_len : (files.map (fun f => _extract_features fs f gls decay)).length
      = files.length := List.length_map _ _
  have hok2 : ∀ i ∈ perm, ∀ e : PyErr,
      (files.map (fun f => _extract_features fs f gls decay))[i]?
        ≠ some (.error e) := by
    intro i hi e hcon
    rw [List.getElem?_map] at hcon
    cases hf : files[i]? with
    | none => rw [hf] at hcon; exact Option.noConfusion hcon
    | some f =>
      rw [hf, Option.map_some'] at hcon
      have hokf := hok f (List.getElem?_mem hf)
      injection hcon with hcon1
      rw [hcon1] at hokf
      simp [isOk] at hokf
  obtain ⟨slots', h1, h2, h3, h4⟩ :=
    collect_all_ok (files.map (fun f => _extract_features fs f gls decay)) perm
      (List.replicate (files.map (fun f => _extract_features fs f gls decay)).length
        none) hok2
  unfold extract_features_parallel collect_results
  rw [h1]
  show np_stack_T (slots'.map (fun s => s.getD []))
    = .ok (files.map (fun f => okD (_extract_features fs f gls decay) []))
  have hslen : slots'.length = files.length := by
    rw [h2, List.length_replicate, hout_len]
  have hmat : slots'.map (fun s => s.getD [])
      = files.map (fun f => okD (_extract_features fs f gls decay) []) := by
    apply List.ext_getElem?
    intro j
    rw [List.getElem?_map, List.getElem?_map]
    by_cases hj : j < files.length
    · obtain ⟨f, hfj⟩ : ∃ f, files[j]? = some f :=
        ⟨_, List.getElem?_eq_getElem hj⟩
      have hmem : f ∈ files := List.getElem?_mem hfj
      obtain ⟨v, hv⟩ : ∃ v, _extract_features fs f gls decay = .ok v := by
        cases ht : _extract_features fs f gls decay with
        | ok v => exact ⟨v, rfl⟩
        | error e =>
          have hokf := hok f hmem
          rw [ht] at hokf
          simp [isOk] at hokf
      have hoj : (files.map (fun f => _extract_features fs f gls decay))[j]?
          = some (.ok v) := by
        rw [List.getElem?_map, hfj, Option.map_some', hv]
      have hsj : slots'[j]? = some (some v) :=
        h3 j v (hcov j hj) hoj
          (by rw [List.length_replicate, hout_len]; exact hj)
      rw [hsj, hfj, Option.map_some', Option.map_some', hv]
      rfl
    · have hge : files.length ≤ j := Nat.le_of_not_lt hj
      have hfj : files[j]? = none := List.getElem?_eq_none hge
      have hsj : slots'[j]? = none :=
        List.getElem?_eq_none (by rw [hslen]; exact hge)
      rw [hfj, hsj]
      rfl
  rw [hmat]
  have hne2 : (files.map
      (fun f => okD (_extract_features fs f gls decay) [])).isEmpty = false := by
    rw [List.isEmpty_eq_false]
    intro hcon
    exact hne (List.map_eq_nil_iff.mp hcon)
  simp only [np_stack_T, hne2, Bool.false_eq_true, if_false]

/-- When some per-file task raises, the parallel batch re-raises one of
the task exceptions unchanged and yields no matrix at all. -/
theorem parallel_fail_fast (fs : FileSystem) (files : List String)
    (gls : RegionSet) (decay : ℝ) (perm : List Nat)
    (hfail : ∃ f ∈ files, ∃ e : PyErr, _extract_features fs f gls decay = .error e)
    (hcov : ∀ i, i < files.length → i ∈ perm) :
    ∃ e' : PyErr,
      extract_features_parallel fs files gls decay perm = .error e'
        ∧ (∃ f ∈ files, _extract_features fs f gls decay = .error e')
        ∧ ∀ M, extract_features_parallel fs files gls decay perm ≠ .ok M := by
  obtain ⟨f, hf, e, he⟩ := hfail
  obtain ⟨i, hfi⟩ := List.mem_iff_getElem?.mp hf
  obtain ⟨hi, _⟩ := List.getElem?_eq_some_iff.mp hfi
  have hout : (files.map (fun g => _extract_features fs g gls decay))[i]?
      = some (.error e) := by
    rw [List.getElem?_map, hfi, Option.map_some', he]
  have hfail2 : ∃ k ∈ perm, ∃ e2 : PyErr,
      (files.map (fun g => _extract_features fs g gls decay))[k]?
        = some (.error e2) :=
    ⟨i, hcov i hi, e, hout⟩
  obtain ⟨e', h1, j, _hj, hje⟩ :=
    collect_first_error (files.map (fun g => _extract_features fs g gls decay))
      perm (List.replicate
        (files.map (fun g => _extract_features fs g gls decay)).length none)
      hfail2
  have hres : extract_features_parallel fs files gls decay perm = .error e' := by
    unfold extract_features_parallel collect_results
    rw [h1]
  refine ⟨e', hres, ?_, ?_⟩
  · rw [List.getElem?_map] at hje
    cases hgj : files[j]? with
    | none => rw [hgj] at hje; exact Option.noConfusion hje
    | some g =>
      rw [hgj, Option.map_some'] at hje
      injection hje with hje1
      exact ⟨g, List.getElem?_mem hgj, hje1⟩
  · intro M hM
    rw [hres] at hM
    exact Except.noConfusion hM

/-- Single-file extraction reads the filesystem only at its input path. -/
theorem _extract_features_congr (fs1 fs2 : FileSystem) (path : String)
    (gls : RegionSet) (decay : ℝ) (h : fs1 path = fs2 path) :
    _extract_features fs1 path gls decay = _extract_features fs2 path gls decay := by
  unfold _extract_features _extract_features_core
  rw [h]

/-- Distinct names yield distinct cache paths under the same cache
directory. -/
theorem cache_path_inj (d a b : String) (h : cache_path d a = cache_path d b) :
    a = b := by
  unfold cache_path at h
  have h2 : ((d.data ++ "/".data) ++ a.data) ++ ".bed".data
      = ((d.data ++ "/".data) ++ b.data) ++ ".bed".data := by
    have h3 : (d ++ "/" ++ a ++ ".bed").data = (d ++ "/" ++ b ++ ".bed").data := by
      rw [h]
    simpa [String.data_append] using h3
  have h4 : a.data = b.data :=
    List.append_cancel_left (List.append_cancel_right h2)
  cases a
  cases b
  exact congrArg String.mk h4

/-- In a duplicate-free list, entries at distinct positions differ. -/
theorem nodup_getElem?_ne {l : List String} (hnd : l.Nodup) {i j : Nat}
    (hij : i ≠ j) {a b : String} (ha : l[i]? = some a) (hb : l[j]? = some b) :
    a ≠ b := by
  obtain ⟨hi, hia⟩ := List.getElem?_eq_some_iff.mp ha
  obtain ⟨hj, hjb⟩ := List.getElem?_eq_some_iff.mp hb
  intro hab
  apply hij
  have hinj := List.nodup_iff_injective_getElem.mp hnd
  have heq : (fun k : Fin l.length => l[k.1]) ⟨i, hi⟩
      = (fun k : Fin l.length => l[k.1]) ⟨j, hj⟩ := by
    simp only []
    rw [hia, hjb, hab]
  exact congrArg Fin.val (hinj heq)

/-- A named-subset extraction with a cache directory touches the
filesystem only at its own cache path. -/
theorem process_frame (fs : FileSystem) (bed nm : String) (gls : RegionSet)
    (decay : ℝ) (d tmp q : String) (hq : q ≠ cache_path d nm) :
    (process_bed_file_for_name fs bed nm gls decay (some d) tmp).2 q = fs q := by
  simp only [process_bed_file_for_name]
  cases hc : fs (cache_path d nm) with
  | some c => rfl
  | none =>
    simp only [_extract_features_ripgrep]
    cases hb : fsWrite fs (cache_path d nm) [] bed with
    | none =>
      simp only [fsWrite]
      rw [if_neg hq]
    | some L =>
      by_cases hE : (rg_filter nm L).isEmpty
      · simp only [hE, if_true, fsWrite]
        rw [if_neg hq, if_neg hq]
      · rw [Bool.not_eq_true] at hE
        simp only [hE, Bool.false_eq_true, if_false, fsWrite]
        rw [if_neg hq, if_neg hq]

/-- The outcome of a named-subset extraction with a cache directory
depends on the filesystem only through the merged file and its own
cache path (the scratch path is unused on this branch). -/
theorem process_result_congr (fs1 fs2 : FileSystem) (bed nm : String)
    (gls : RegionSet) (decay : ℝ) (d tmp1 tmp2 : String)
    (hbed : fs1 bed = fs2 bed)
    (hp : fs1 (cache_path d nm) = fs2 (cache_path d nm)) :
    (process_bed_file_for_name fs1 bed nm gls decay (some d) tmp1).1
      = (process_bed_file_for_name fs2 bed nm gls decay (some d) tmp2).1 := by
  simp only [process_bed_file_for_name]
  rw [hp]
  cases hc : fs2 (cache_path d nm) with
  | some c =>
    exact _extract_features_congr fs1 fs2 (cache_path d nm) gls decay hp
  | none =>
    simp only [_extract_features_ripgrep]
    have hb12 : fsWrite fs1 (cache_path d nm) [] bed
        = fsWrite fs2 (cache_path d nm) [] bed := by
      simp only [fsWrite]
      by_cases hbp : bed = cache_path d nm
      · rw [if_pos hbp, if_pos hbp]
      · rw [if_neg hbp, if_neg hbp, hbed]
    rw [hb12]
    cases hb : fsWrite fs2 (cache_path d nm) [] bed with
    | none => rfl
    | some L =>
      by_cases hE : (rg_filter nm L).isEmpty
      · simp only [hE, if_true]
      · rw [Bool.not_eq_true] at hE
        simp only [hE, Bool.false_eq_true, if_false]
        exact _extract_features_congr _ _ _ gls decay (by simp [fsWrite])

/-- An exception raised at collection time is final for the chip-atlas
loop as well. -/
theorem chip_error_absorbs (bed : String) (names : List String)
    (gls : RegionSet) (decay : ℝ) (data_dir : Option String)
    (tmp : Nat → String) (perm : List Nat) (e : PyErr) (fs : FileSystem) :
    perm.foldl (chip_step bed names gls decay data_dir tmp) (.error e, fs)
      = (.error e, fs) := by
  induction perm with
  | nil => rfl
  | cons i rest ih => rw [List.foldl_cons]; exact ih

/-- Chip-atlas batch invariant: with duplicate-free names, cache paths
distinct from the merged file, and every reference task outcome (the
task as run on the initial filesystem) a success, the task/collection
loop succeeds — whatever the completion order — and fills each slot with
its input's reference feature vector, because each task only ever
touches its own cache path. -/
theorem chip_all_ok (fs0 : FileSystem) (bed : String) (names : List String)
    (gls : RegionSet) (decay : ℝ) (d : String) (tmp : Nat → String)
    (hnd : names.Nodup)
    (hbedp : ∀ nm ∈ names, cache_path d nm ≠ bed) :
    ∀ perm : List Nat, perm.Nodup →
    ∀ (slots : List (Option (List ℝ))) (fs : FileSystem),
    fs bed = fs0 bed →
    (∀ i nm, i ∈ perm → names[i]? = some nm →
        fs (cache_path d nm) = fs0 (cache_path d nm)) →
    (∀ i nm, i ∈ perm → names[i]? = some nm →
        isOk (process_bed_file_for_name fs0 bed nm gls decay (some d)
          (tmp i)).1 = true) →
    ∃ slots' fs',
      perm.foldl (chip_step bed names gls decay (some d) tmp) (.ok slots, fs)
          = (.ok slots', fs')
        ∧ slots'.length = slots.length
        ∧ (∀ j nm v, j ∈ perm → names[j]? = some nm →
            (process_bed_file_for_name fs0 bed nm gls decay (some d) (tmp j)).1
              = .ok v → j < slots.length → slots'[j]? = some (some v))
        ∧ (∀ j, j ∉ perm → slots'[j]? = slots[j]?) := by
  intro perm
  induction perm with
  | nil =>
    intro _ slots fs _ _ _
    exact ⟨slots, fs, rfl, rfl,
      fun j nm v hj _ _ _ => absurd hj (List.not_mem_nil j), fun j _ => rfl⟩
  | cons i rest ih =>
    intro hndp slots fs hfsbed hagree hok
    obtain ⟨inotin, hndrest⟩ := List.nodup_cons.mp hndp
    cases hni : names[i]? with
    | none =>
      have hstep : chip_step bed names gls decay (some d) tmp (.ok slots, fs) i
          = (.ok slots, fs) := by
        simp [chip_step, hni]
      obtain ⟨slots', fs', h1, h2, h3, h4⟩ :=
        ih hndrest slots fs hfsbed
          (fun k nm hk hnk => hagree k nm (List.mem_cons_of_mem i hk) hnk)
          (fun k nm hk hnk => hok k nm (List.mem_cons_of_mem i hk) hnk)
      refine ⟨slots', fs', ?_, h2, ?_, ?_⟩
      · rw [List.foldl_cons, hstep]; exact h1
      · intro j nm v hj hnj hv hlt
        rcases List.mem_cons.mp hj with rfl | hj'
        · rw [hni] at hnj; exact Option.noConfusion hnj
        · exact h3 j nm v hj' hnj hv hlt
      · intro j hj
        exact h4 j (fun h => hj (List.mem_cons_of_mem i h))
    | some nm =>
      have hmemnm : nm ∈ names := List.getElem?_mem hni
      have hres1 : (process_bed_file_for_name fs bed nm gls decay (some d)
            (tmp i)).1
          = (process_bed_file_for_name fs0 bed nm gls decay (some d)
            (tmp i)).1 :=
        process_result_congr fs fs0 bed nm gls decay d (tmp i) (tmp i) hfsbed
          (hagree i nm (List.mem_cons_self i rest) hni)
      have hoki := hok i nm (List.mem_cons_self i rest) hni
      obtain ⟨v, hv⟩ : ∃ v,
          (process_bed_file_for_name fs0 bed nm gls decay (some d) (tmp i)).1
            = .ok v := by
        cases ht : (process_bed_file_for_name fs0 bed nm gls decay (some d)
            (tmp i)).1 with
        | ok v => exact ⟨v, rfl⟩
        | error e => rw [ht] at hoki; simp [isOk] at hoki
      have hpair : process_bed_file_for_name fs bed nm gls decay (some d) (tmp i)
          = (.ok v, (process_bed_file_for_name fs bed nm gls decay (some d)
            (tmp i)).2) := by
        rw [← hv, ← hres1]
      have hstep : chip_step bed names gls decay (some d) tmp (.ok slots, fs) i
          = (.ok (slots.set i (some v)),
            (process_bed_file_for_name fs bed nm gls decay (some d) (tmp i)).2)
          := by
        simp only [chip_step, hni]
        rw [hpair]
      have hfs1bed : (process_bed_file_for_name fs bed nm gls decay (some d)
          (tmp i)).2 bed = fs0 bed := by
        rw [process_frame fs bed nm gls decay d (tmp i) bed
          (fun h => hbedp nm hmemnm h.symm)]
        exact hfsbed
      have hfs1agree : ∀ k nm', k ∈ rest → names[k]? = some nm' →
          (process_bed_file_for_name fs bed nm gls decay (some d) (tmp i)).2
              (cache_path d nm')
            = fs0 (cache_path d nm') := by
        intro k nm' hk hnk
        have hki : i ≠ k := fun h => inotin (h ▸ hk)
        have hnm : nm ≠ nm' := nodup_getElem?_ne hnd hki hni hnk
        rw [process_frame fs bed nm gls decay d (tmp i) (cache_path d nm')
          (fun h => hnm (cache_path_inj d nm nm' h.symm))]
        exact hagree k nm' (List.mem_cons_of_mem i hk) hnk
      obtain ⟨slots', fs', h1, h2, h3, h4⟩ :=
        ih hndrest (slots.set i (some v))
          (process_bed_file_for_name fs bed nm gls decay (some d) (tmp i)).2
          hfs1bed hfs1agree
          (fun k nm' hk hnk => hok k nm' (List.mem_cons_of_mem i hk) hnk)
      refine ⟨slots', fs', ?_, ?_, ?_, ?_⟩
      · rw [List.foldl_cons, hstep]; exact h1
      · rw [h2, List.length_set]
      · intro j nm' w hj hnj hw hlt
        rcases List.mem_cons.mp hj with rfl | hj'
        · by_cases hjr : j ∈ rest
          · exact h3 j nm' w hjr hnj hw (by rw [List.length_set]; exact hlt)
          · rw [h4 j hjr]
            rw [hni] at hnj
            have hnm' : nm = nm' := by injection hnj
            rw [← hnm'] at hw
            have hvw : v = w := by
              rw [hv] at hw
              injection hw
            rw [← hvw]
            exact List.getElem?_set_eq_of_lt (some v) hlt
        · exact h3 j nm' w hj' hnj hw (by rw [List.length_set]; exact hlt)
      · intro j hj
        have hji : i ≠ j := fun h => hj (h ▸ List.mem_cons_self i rest)
        rw [h4 j (fun h => hj (List.mem_cons_of_mem i h)),
          List.getElem?_set_ne hji]

/-- Chip-atlas batch, failing case: if some reference task outcome is an
exception, the loop stops with an exception (fail-fast), whatever the
completion order. -/
theorem chip_fail_fast_go (fs0 : FileSystem) (bed : String)
    (names : List String) (gls : RegionSet) (decay : ℝ) (d : String)
    (tmp : Nat → String) (hnd : names.Nodup)
    (hbedp : ∀ nm ∈ names, cache_path d nm ≠ bed) :
    ∀ perm : List Nat, perm.Nodup →
    ∀ (slots : List (Option (List ℝ))) (fs : FileSystem),
    fs bed = fs0 bed →
    (∀ i nm, i ∈ perm → names[i]? = some nm →
        fs (cache_path d nm) = fs0 (cache_path d nm)) →
    (∃ i nm, i ∈ perm ∧ names[i]? = some nm ∧
        isOk (process_bed_file_for_name fs0 bed nm gls decay (some d)
          (tmp i)).1 = false) →
    ∃ e fs',
      perm.foldl (chip_step bed names gls decay (some d) tmp) (.ok slots, fs)
        = (.error e, fs') := by
  intro perm
  induction perm with
  | nil =>
    intro _ slots fs _ _ hfail
    obtain ⟨i, nm, hi, _, _⟩ := hfail
    exact absurd hi (List.not_mem_nil i)
  | cons i rest ih =>
    intro hndp slots fs hfsbed hagree hfail
    obtain ⟨inotin, hndrest⟩ := List.nodup_cons.mp hndp
    cases hni : names[i]? with
    | none =>
      have hstep : chip_step bed names gls decay (some d) tmp (.ok slots, fs) i
          = (.ok slots, fs) := by
        simp [chip_step, hni]
      have hfail' : ∃ k nm, k ∈ rest ∧ names[k]? = some nm ∧
          isOk (process_bed_file_for_name fs0 bed nm gls decay (some d)
            (tmp k)).1 = false := by
        obtain ⟨k, nm, hk, hnk, hfal⟩ := hfail
        rcases List.mem_cons.mp hk with rfl | hk'
        · rw [hni] at hnk; exact Option.noConfusion hnk
        · exact ⟨k, nm, hk', hnk, hfal⟩
      obtain ⟨e, fs', h1⟩ :=
        ih hndrest slots fs hfsbed
          (fun k nm hk hnk => hagree k nm (List.mem_cons_of_mem i hk) hnk)
          hfail'
      refine ⟨e, fs', ?_⟩
      rw [List.foldl_cons, hstep]; exact h1
    | some nm =>
      have hmemnm : nm ∈ names := List.getElem?_mem hni
      have hres1 : (process_bed_file_for_name fs bed nm gls decay (some d)
            (tmp i)).1
          = (process_bed_file_for_name fs0 bed nm gls decay (some d)
            (tmp i)).1 :=
        process_result_congr fs fs0 bed nm gls decay d (tmp i) (tmp i) hfsbed
          (hagree i nm (List.mem_cons_self i rest) hni)
      cases href : (process_bed_file_for_name fs0 bed nm gls decay (some d)
          (tmp i)).1 with
      | error e =>
        have hpair : process_bed_file_for_name fs bed nm gls decay (some d)
            (tmp i)
            = (.error e, (process_bed_file_for_name fs bed nm gls decay (some d)
              (tmp i)).2) := by
          rw [← href, ← hres1]
        have hstep : chip_step bed names gls decay (some d) tmp (.ok slots, fs) i
            = (.error e, (process_bed_file_for_name fs bed nm gls decay (some d)
              (tmp i)).2) := by
          simp only [chip_step, hni]
          rw [hpair]
        refine ⟨e, (process_bed_file_for_name fs bed nm gls decay (some d)
          (tmp i)).2, ?_⟩
        rw [List.foldl_cons, hstep]
        exact chip_error_absorbs bed names gls decay (some d) tmp rest e _
      | ok v =>
        have hpair : process_bed_file_for_name fs bed nm gls decay (some d)
            (tmp i)
            = (.ok v, (process_bed_file_for_name fs bed nm gls decay (some d)
              (tmp i)).2) := by
          rw [← href, ← hres1]
        have hstep : chip_step bed names gls decay (some d) tmp (.ok slots, fs) i
            = (.ok (slots.set i (some v)),
              (process_bed_file_for_name fs bed nm gls decay (some d)
                (tmp i)).2) := by
          simp only [chip_step, hni]
          rw [hpair]
        have hfs1bed : (process_bed_file_for_name fs bed nm gls decay (some d)
            (tmp i)).2 bed = fs0 bed := by
          rw [process_frame fs bed nm gls decay d (tmp i) bed
            (fun h => hbedp nm hmemnm h.symm)]
          exact hfsbed
        have hfs1agree : ∀ k nm', k ∈ rest → names[k]? = some nm' →
            (process_bed_file_for_name fs bed nm gls decay (some d) (tmp i)).2
                (cache_path d nm')
              = fs0 (cache_path d nm') := by
          intro k nm' hk hnk
          have hki : i ≠ k := fun h => inotin (h ▸ hk)
          have hnm : nm ≠ nm' := nodup_getElem?_ne hnd hki hni hnk
          rw [process_frame fs bed nm gls decay d (tmp i) (cache_path d nm')
            (fun h => hnm (cache_path_inj d nm nm' h.symm))]
          exact hagree k nm' (List.mem_cons_of_mem i hk) hnk
        have hfail' : ∃ k nm', k ∈ rest ∧ names[k]? = some nm' ∧
            isOk (process_bed_file_for_name fs0 bed nm' gls decay (some d)
              (tmp k)).1 = false := by
          obtain ⟨k, nm', hk, hnk, hfal⟩ := hfail
          rcases List.mem_cons.mp hk with rfl | hk'
          · rw [hni] at hnk
            have hnm' : nm = nm' := by injection hnk
            rw [← hnm', href] at hfal
            simp [isOk] at hfal
          · exact ⟨k, nm', hk', hnk, hfal⟩
        obtain ⟨e, fs', h1⟩ :=
          ih hndrest (slots.set i (some v))
            (process_bed_file_for_name fs bed nm gls decay (some d) (tmp i)).2
            hfs1bed hfs1agree hfail'
        refine ⟨e, fs', ?_⟩
        rw [List.foldl_cons, hstep]; exact h1

/-- When every reference task succeeds, the chip-atlas batch yields the
feature matrix whose column i is the feature vector computed for
`names[i]` on the batch's initial filesystem, independently of the
completion order. -/
theorem chip_columns_in_input_order (fs0 : FileSystem) (bed : String)
    (names : List String) (gls : RegionSet) (decay : ℝ) (d : String)
    (tmp : Nat → String) (perm : List Nat)
    (hne : names ≠ []) (hnd : names.Nodup)
    (hbedp : ∀ nm ∈ names, cache_path d nm ≠ bed)
    (hpermnd : perm.Nodup)
    (hcov : ∀ i, i < names.length → i ∈ perm)
    (hok : ∀ i nm, names[i]? = some nm →
        isOk (process_bed_file_for_name fs0 bed nm gls decay (some d)
          (tmp i)).1 = true) :
    (extract_features_chip_atlas fs0 bed names gls decay (some d) tmp perm).1
      = .ok ((List.range names.length).map
          (fun i => okD (process_bed_file_for_name fs0 bed (names.getD i "")
            gls decay (some d) (tmp i)).1 [])) := by
  obtain ⟨slots', fs', h1, h2, h3, h4⟩ :=
    chip_all_ok fs0 bed names gls decay d tmp hnd hbedp perm hpermnd
      (List.replicate names.length none) fs0 rfl (fun _ _ _ _ => rfl)
      (fun i nm _ hni => hok i nm hni)
  unfold extract_features_chip_atlas run_chip_tasks
  rw [h1]
  show np_stack_T (slots'.map (fun s => s.getD []))
    = .ok ((List.range names.length).map
        (fun i => okD (process_bed_file_for_name fs0 bed (names.getD i "")
          gls decay (some d) (tmp i)).1 []))
  have hslen : slots'.length = names.length := by
    rw [h2, List.length_replicate]
  have hmat : slots'.map (fun s => s.getD [])
      = (List.range names.length).map
          (fun i => okD (process_bed_file_for_name fs0 bed (names.getD i "")
            gls decay (some d) (tmp i)).1 []) := by
    apply List.ext_getElem?
    intro j
    rw [List.getElem?_map, List.getElem?_map]
    by_cases hj : j < names.length
    · obtain ⟨nm, hnj⟩ : ∃ nm, names[j]? = some nm :=
        ⟨_, List.getElem?_eq_getElem hj⟩
      obtain ⟨v, hv⟩ : ∃ v,
          (process_bed_file_for_name fs0 bed nm gls decay (some d) (tmp j)).1
            = .ok v := by
        cases ht : (process_bed_file_for_name fs0 bed nm gls decay (some d)
            (tmp j)).1 with
        | ok v => exact ⟨v, rfl⟩
        | error e =>
          have hokj := hok j nm hnj
          rw [ht] at hokj
          simp [isOk] at hokj
      have hsj : slots'[j]? = some (some v) :=
        h3 j nm v (hcov j hj) hnj hv (by rw [List.length_replicate]; exact hj)
      have hrj : (List.range names.length)[j]? = some j :=
        List.getElem?_range hj
      have hgetD : names.getD j "" = nm := by
        rw [List.getD_eq_getElem?_getD, hnj]
        rfl
      rw [hsj, hrj, Option.map_some', Option.map_some', hgetD, hv]
      rfl
    · have hge : names.length ≤ j := Nat.le_of_not_lt hj
      rw [List.getElem?_eq_none (by rw [hslen]; exact hge),
        List.getElem?_eq_none (by rw [List.length_range]; exact hge)]
      rfl
  rw [hmat]
  have hne2 : ((List.range names.length).map
      (fun i => okD (process_bed_file_for_name fs0 bed (names.getD i "")
        gls decay (some d) (tmp i)).1 [])).isEmpty = false := by
    rw [List.isEmpty_eq_false]
    intro hcon
    have hr := List.map_eq_nil_iff.mp hcon
    rw [List.range_eq_nil] at hr
    exact hne (List.length_eq_zero.mp hr)
  simp only [np_stack_T, hne2, Bool.false_eq_true, if_false]

/-- When some reference task raises, the chip-atlas batch re-raises an
exception and yields no matrix at all. -/
theorem chip_fail_fast (fs0 : FileSystem) (bed : String)
    (names : List String) (gls : RegionSet) (decay : ℝ) (d : String)
    (tmp : Nat → String) (perm : List Nat)
    (hnd : names.Nodup)
    (hbedp : ∀ nm ∈ names, cache_path d nm ≠ bed)
    (hpermnd : perm.Nodup)
    (hcov : ∀ i, i < names.length → i ∈ perm)
    (hfail : ∃ i nm, names[i]? = some nm ∧
        isOk (process_bed_file_for_name fs0 bed nm gls decay (some d)
          (tmp i)).1 = false) :
    ∃ e : PyErr,
      (extract_features_chip_atlas fs0 bed names gls decay (some d) tmp
          perm).1 = .error e
        ∧ ∀ M, (extract_features_chip_atlas fs0 bed names gls decay (some d)
            tmp perm).1 ≠ .ok M := by
  obtain ⟨i, nm, hni, hfal⟩ := hfail
  have hi : i < names.length := (List.getElem?_eq_some_iff.mp hni).1
  obtain ⟨e, fs', h1⟩ :=
    chip_fail_fast_go fs0 bed names gls decay d tmp hnd hbedp perm hpermnd
      (List.replicate names.length none) fs0 rfl (fun _ _ _ _ => rfl)
      ⟨i, nm, hcov i hi, hni, hfal⟩
  refine ⟨e, ?_, ?_⟩
  · unfold extract_features_chip_atlas run_chip_tasks
    rw [h1]
  · intro M hM
    unfold extract_features_chip_atlas run_chip_tasks at hM
    rw [h1] at hM
    exact Except.noConfusion hM

/-- Claim C2: For every ordered list of inputs, each batch orchestrator's
output feature matrix has column i equal to the feature vector of
`inputs[i]` — for the parallel batch, `_extract_features` of
`bed_files[i]`; for the chip-atlas batch (duplicate-free names whose
cache paths do not collide with the merged file), the vector computed
for `names[i]` on the batch's initial filesystem.  The right-hand sides
do not mention the completion order, so the matrix is invariant under
any completion order, and running the batch on a permutation of the
inputs and permuting the columns back yields the same matrix. -/
theorem C2_columns_by_input_order (fs : FileSystem) (files : List String)
    (bed : String) (names : List String) (gls : RegionSet) (decay : ℝ)
    (d : String) (tmp : Nat → String) (perm1 perm2 : List Nat)
    (hfne : files ≠ [])
    (hfok : ∀ f ∈ files, isOk (_extract_features fs f gls decay) = true)
    (hcov1 : ∀ i, i < files.length → i ∈ perm1)
    (hnne : names ≠ []) (hnd : names.Nodup)
    (hbedp : ∀ nm ∈ names, cache_path d nm ≠ bed)
    (hpermnd : perm2.Nodup)
    (hcov2 : ∀ i, i < names.length → i ∈ perm2)
    (hok : ∀ i nm, names[i]? = some nm →
        isOk (process_bed_file_for_name fs bed nm gls decay (some d)
          (tmp i)).1 = true) :
    extract_features_parallel fs files gls decay perm1
        = .ok (files.map (fun f => okD (_extract_features fs f gls decay) []))
      ∧ (extract_features_chip_atlas fs bed names gls decay (some d) tmp
          perm2).1
        = .ok ((List.range names.length).map
            (fun i => okD (process_bed_file_for_name fs bed (names.getD i "")
              gls decay (some d) (tmp i)).1 [])) :=
  ⟨parallel_columns_in_input_order fs files gls decay perm1 hfne hfok hcov1,
    chip_columns_in_input_order fs bed names gls decay d tmp perm2 hnne hnd
      hbedp hpermnd hcov2 hok⟩

/-- C2 witness: a one-file parallel batch and a two-name chip-atlas batch
on the concrete merged file. -/
theorem C2_columns_by_input_order_witness :
    extract_features_parallel fsMergedC ["merged.bed"] glsTwo 10000 [0]
        = .ok (["merged.bed"].map
            (fun f => okD (_extract_features fsMergedC f glsTwo 10000) []))
      ∧ (extract_features_chip_atlas fsMergedC "merged.bed"
          ["CTCF", "STAT10"] glsTwo 10000 (some "cache")
          (fun _ => "tmpfile") [0, 1]).1
        = .ok ((List.range (["CTCF", "STAT10"] : List String).length).map
            (fun i => okD (process_bed_file_for_name fsMergedC "merged.bed"
              ((["CTCF", "STAT10"] : List String).getD i "") glsTwo 10000
              (some "cache") "tmpfile").1 [])) := by
  have h := C2_columns_by_input_order fsMergedC ["merged.bed"] "merged.bed"
    ["CTCF", "STAT10"] glsTwo 10000 "cache" (fun _ => "tmpfile") [0] [0, 1]
    (by decide)
    (by
      intro f hf
      have hf2 := List.mem_singleton.mp hf
      subst hf2
      rfl)
    (by decide)
    (by decide)
    (by decide)
    (by decide)
    (by decide)
    (by decide)
    (by
      intro i nm h
      rcases i with _ | i
      · have h2 : "CTCF" = nm := by injection h
        rw [← h2]
        rfl
      · rcases i with _ | i
        · have h2 : "STAT10" = nm := by injection h
          rw [← h2]
          rfl
        · rw [show (["CTCF", "STAT10"] : List String)[i + 2]? = none from by
            rw [List.getElem?_cons_succ, List.getElem?_cons_succ]
            exact List.getElem?_nil] at h
          exact Option.noConfusion h)
  exact h

/-- C6 helper: a filesystem with one well-formed file and one malformed
BED file. -/
def fsBadPair : FileSystem :=
  fun p =>
    if p = "good.bed" then some ["chr1\t0\t10\tA"]
    else if p = "bad.bed" then some ["garbage"] else none

/-- Claim C6 counterexample: The orchestrator attaches NO originating input
identifier to a propagated task exception: two batches in which the
malformed input sits at different positions (index 1 versus index 0)
propagate the bit-identical bare exception value, from which the
originating input cannot be recovered. -/
theorem C6_counterexample :
    extract_features_parallel fsBadPair ["good.bed", "bad.bed"] glsTwo 10000
        [0, 1] = .error .malformedInput
      ∧ extract_features_parallel fsBadPair ["bad.bed", "good.bed"] glsTwo
          10000 [0, 1] = .error .malformedInput := by
  constructor
  · rfl
  · rfl

/-- Claim C6 amended: If any single extraction task in a batch raises, the
whole batch fails: the exception is propagated to the caller AS-IS (the
orchestrator re-raises the task's own exception value and attaches no
input identifier), and no partial feature matrix is returned —
all-or-nothing under fail-fast, for both orchestrators. -/
theorem C6_fail_fast_propagates (fs : FileSystem) (files : List String)
    (bed : String) (names : List String) (gls : RegionSet) (decay : ℝ)
    (d : String) (tmp : Nat → String) (perm1 perm2 : List Nat)
    (hcov1 : ∀ i, i < files.length → i ∈ perm1)
    (hffail : ∃ f ∈ files, ∃ e : PyErr,
        _extract_features fs f gls decay = .error e)
    (hnd : names.Nodup)
    (hbedp : ∀ nm ∈ names, cache_path d nm ≠ bed)
    (hpermnd : perm2.Nodup)
    (hcov2 : ∀ i, i < names.length → i ∈ perm2)
    (hnfail : ∃ i nm, names[i]? = some nm ∧
        isOk (process_bed_file_for_name fs bed nm gls decay (some d)
          (tmp i)).1 = false) :
    (∃ e' : PyErr,
        extract_features_parallel fs files gls decay perm1 = .error e'
          ∧ (∃ f ∈ files, _extract_features fs f gls decay = .error e')
          ∧ ∀ M, extract_features_parallel fs files gls decay perm1 ≠ .ok M)
      ∧ (∃ e : PyErr,
          (extract_features_chip_atlas fs bed names gls decay (some d) tmp
              perm2).1 = .error e
            ∧ ∀ M, (extract_features_chip_atlas fs bed names gls decay (some d)
                tmp perm2).1 ≠ .ok M) :=
  ⟨parallel_fail_fast fs files gls decay perm1 hffail hcov1,
    chip_fail_fast fs bed names gls decay d tmp perm2 hnd hbedp hpermnd hcov2
      hnfail⟩

/-- C6 helper: merged file plus a malformed BED file on one filesystem. -/
def fsC6 : FileSystem :=
  fun p =>
    if p = "merged.bed" then
      some ["chr1\t0\t10\tCTCF", "chr1\t20\t30\tSTAT10"]
    else if p = "bad.bed" then some ["garbage"] else none

/-- C6 witness: a parallel batch whose only file is malformed and a
chip-atlas batch whose only name has no matching lines both fail with
the task's own exception and yield no matrix. -/
theorem C6_fail_fast_propagates_witness :
    (∃ e' : PyErr,
        extract_features_parallel fsC6 ["bad.bed"] glsTwo 10000 [0] = .error e'
          ∧ (∃ f ∈ ["bad.bed"], _extract_features fsC6 f glsTwo 10000
              = .error e')
          ∧ ∀ M, extract_features_parallel fsC6 ["bad.bed"] glsTwo 10000 [0]
              ≠ .ok M)
      ∧ (∃ e : PyErr,
          (extract_features_chip_atlas fsC6 "merged.bed" ["GATA2"] glsTwo
              10000 (some "cache") (fun _ => "tmpfile") [0]).1 = .error e
            ∧ ∀ M, (extract_features_chip_atlas fsC6 "merged.bed" ["GATA2"]
                glsTwo 10000 (some "cache") (fun _ => "tmpfile") [0]).1
                ≠ .ok M) :=
  C6_fail_fast_propagates fsC6 ["bad.bed"] "merged.bed" ["GATA2"] glsTwo 10000
    "cache" (fun _ => "tmpfile") [0] [0]
    (by decide)
    ⟨"bad.bed", by decide, .malformedInput, rfl⟩
    (by decide)
    (by decide)
    (by decide)
    (by decide)
    ⟨0, "GATA2", rfl, rfl⟩
